import Mathlib

/-!
Verification of the backtesting / risk-management subsystem of the
flights-alerts repository.

All monetary quantities (prices, cash, position sizes, percentages) are
modelled as rationals (the Python code uses floats; all the operations
involved are field operations and comparisons, which we model exactly).

Files embedded:
  * `src/risk/risk_manager.py`      — class `RiskManager` (parameters only,
    its methods are pure functions of the parameters and their arguments)
  * `src/backtesting/backtest_engine.py` — class `BacktestEngine`
  * `src/trading/strategy.py`       — `MovingAverageCrossover.generate_signals`
  * `src/strategies/moving_average.py` — `MovingAverageCrossover.generate_signals`
  * `src/backtest/risk_metrics.py`  — the drawdown part of
    `calculate_risk_metrics`
  * `src/trading/risk_manager.py`   — stateful `RiskManager`
    (`update_position`, `close_position`)
-/

/-! ## `src/risk/risk_manager.py` — `RiskManager`

The class carries five numeric parameters set in `__init__`; every method is
a pure function of those parameters and its arguments, so we model the class
as a parameter record and the methods as functions taking it. -/

structure RiskParams where
  max_position_size : ℚ
  max_drawdown : ℚ
  stop_loss_pct : ℚ
  take_profit_pct : ℚ
  trailing_stop_pct : ℚ
deriving DecidableEq, Repr

/-- Defaults of `RiskManager.__init__`:
`max_position_size=0.1, max_drawdown=0.2, stop_loss_pct=0.02,
take_profit_pct=0.04, trailing_stop_pct=0.01`. -/
def defaultRiskParams : RiskParams :=
  { max_position_size := 1/10
    max_drawdown := 1/5
    stop_loss_pct := 1/50
    take_profit_pct := 1/25
    trailing_stop_pct := 1/100 }

namespace RiskManager

/-- `RiskManager.calculate_position_size(portfolio_value, current_price,
volatility)`: `position_size = portfolio_value * max_position_size * 0.5`,
then `position_size *= 1 / (1 + volatility)`.  (`current_price` is an
argument of the Python method but is not used by its body.) -/
def calculate_position_size (rm : RiskParams) (portfolio_value : ℚ)
    (current_price : ℚ) (volatility : ℚ) : ℚ :=
  let kelly_fraction : ℚ := 1/2
  let position_size := portfolio_value * rm.max_position_size * kelly_fraction
  let volatility_factor := 1 / (1 + volatility)
  let _ := current_price
  position_size * volatility_factor

/-- `RiskManager.calculate_stop_loss(entry_price, position_type)`. -/
def calculate_stop_loss (rm : RiskParams) (entry_price : ℚ)
    (position_type : String) : ℚ :=
  if position_type = "long" then entry_price * (1 - rm.stop_loss_pct)
  else entry_price * (1 + rm.stop_loss_pct)

/-- `RiskManager.calculate_take_profit(entry_price, position_type)`. -/
def calculate_take_profit (rm : RiskParams) (entry_price : ℚ)
    (position_type : String) : ℚ :=
  if position_type = "long" then entry_price * (1 + rm.take_profit_pct)
  else entry_price * (1 - rm.take_profit_pct)

/-- `RiskManager.update_trailing_stop(current_price, highest_price,
position_type)`. -/
def update_trailing_stop (rm : RiskParams) (current_price : ℚ)
    (highest_price : ℚ) (position_type : String) : ℚ :=
  let _ := current_price
  if position_type = "long" then highest_price * (1 - rm.trailing_stop_pct)
  else highest_price * (1 + rm.trailing_stop_pct)

/-- `RiskManager.check_margin_call(portfolio_value, initial_value)`:
`drawdown = (initial_value - portfolio_value) / initial_value;
return drawdown >= self.max_drawdown`. -/
def check_margin_call (rm : RiskParams) (portfolio_value : ℚ)
    (initial_value : ℚ) : Bool :=
  let drawdown := (initial_value - portfolio_value) / initial_value
  decide (drawdown ≥ rm.max_drawdown)

end RiskManager

/-! ### C3, C4 -/

/-- **C3.** For every entry price `p > 0`: for a long position
`calculate_stop_loss` returns `p*(1-stop_loss_pct)` and
`calculate_take_profit` returns `p*(1+take_profit_pct)`; for a short
position the signs are reversed; and with the percentages in `(0,1)` the
stop loss of a long position is strictly below its take profit. -/
theorem C3_stop_loss_take_profit (rm : RiskParams) (p : ℚ)
    (hp : 0 < p)
    (hsl0 : 0 < rm.stop_loss_pct) (_hsl1 : rm.stop_loss_pct < 1)
    (htp0 : 0 < rm.take_profit_pct) (_htp1 : rm.take_profit_pct < 1) :
    RiskManager.calculate_stop_loss rm p "long" = p * (1 - rm.stop_loss_pct) ∧
    RiskManager.calculate_take_profit rm p "long" = p * (1 + rm.take_profit_pct) ∧
    RiskManager.calculate_stop_loss rm p "short" = p * (1 + rm.stop_loss_pct) ∧
    RiskManager.calculate_take_profit rm p "short" = p * (1 - rm.take_profit_pct) ∧
    RiskManager.calculate_stop_loss rm p "long" <
      RiskManager.calculate_take_profit rm p "long" := by
  refine ⟨rfl, rfl, rfl, rfl, ?_⟩
  unfold RiskManager.calculate_stop_loss RiskManager.calculate_take_profit
  simp only [if_pos rfl]
  have h : (1 : ℚ) - rm.stop_loss_pct < 1 + rm.take_profit_pct := by linarith
  exact mul_lt_mul_of_pos_left h hp

/-- Witness for C3 at `p = 10` with the default parameters. -/
theorem C3_witness :
    RiskManager.calculate_stop_loss defaultRiskParams 10 "long" = 10 * (1 - 1/50) ∧
    RiskManager.calculate_stop_loss defaultRiskParams 10 "long" <
      RiskManager.calculate_take_profit defaultRiskParams 10 "long" := by
  have h := C3_stop_loss_take_profit defaultRiskParams 10
    (by norm_num) (by norm_num [defaultRiskParams]) (by norm_num [defaultRiskParams])
    (by norm_num [defaultRiskParams]) (by norm_num [defaultRiskParams])
  exact ⟨h.1, h.2.2.2.2⟩

/-- **C4.** For every positive `initial_value` and every `portfolio_value`,
`check_margin_call` returns `True` iff the drawdown
`(initial_value - portfolio_value)/initial_value` is `≥ max_drawdown`;
in particular it returns `True` at the exact boundary. -/
theorem C4_check_margin_call (rm : RiskParams) (pv iv : ℚ) (hiv : 0 < iv) :
    (RiskManager.check_margin_call rm pv iv = true ↔
      (iv - pv) / iv ≥ rm.max_drawdown) ∧
    RiskManager.check_margin_call rm (iv - rm.max_drawdown * iv) iv = true := by
  constructor
  · unfold RiskManager.check_margin_call
    exact decide_eq_true_iff
  · unfold RiskManager.check_margin_call
    have hne : iv ≠ 0 := ne_of_gt hiv
    have h : (iv - (iv - rm.max_drawdown * iv)) / iv = rm.max_drawdown := by
      field_simp
    simp only [decide_eq_true_eq, ge_iff_le]
    rw [h]

/-- Witness for C4 with the default parameters, `initial_value = 100`:
the margin call fires exactly at the 20% drawdown boundary. -/
theorem C4_witness :
    (RiskManager.check_margin_call defaultRiskParams 75 100 = true ↔
      ((100 : ℚ) - 75) / 100 ≥ defaultRiskParams.max_drawdown) ∧
    RiskManager.check_margin_call defaultRiskParams
      (100 - defaultRiskParams.max_drawdown * 100) 100 = true := by
  have h := C4_check_margin_call defaultRiskParams 75 100 (by norm_num)
  exact ⟨h.1, h.2⟩

/-! ## `src/backtesting/backtest_engine.py` — `BacktestEngine`

One bar of OHLCV data.  The engine only reads `current_bar['close']`.
The volatility argument it passes to `calculate_position_size` is the
expression `current_bar['close'].pct_change().std()`; since `current_bar
= data.iloc[i]` is a row Series, `current_bar['close']` is a scalar
float, and that attribute access raises `AttributeError` in the source —
the checked embedding below (`execute_signal_checked`, `run_checked`)
models exactly this error path.  The unchecked embedding
(`execute_signal`, `run`) instead takes the volatility as a per-bar
input `vol`, modelling the loop body's arithmetic; it is used only for
the bar-iteration properties (C5, C6), which hold for every value of
`vol` and do not depend on any trade executing. -/

structure Bar where
  close : ℚ
  vol : ℚ
deriving DecidableEq, Repr

/-- An entry of `portfolio['positions']`
(`entry_time` omitted: it is only copied into trade records). -/
structure EnginePosition where
  size : ℚ
  entry_price : ℚ
deriving DecidableEq, Repr

/-- An entry of `self.trades` (`time`/`symbol` omitted from the record is
not: we keep symbol; `time` is the bar index in the data, which the claims
do not mention, so it is omitted). `side` is `"buy"` or `"sell"`. -/
structure Trade where
  symbol : String
  side : String
  price : ℚ
  size : ℚ
  commission : ℚ
deriving DecidableEq, Repr

/-- The `portfolio` dict of `BacktestEngine.run`, plus the engine-level
`self.trades` list threaded through (the Python code keeps `trades` on the
engine object; it is part of the mutable state of a run). -/
structure Portfolio where
  cash : ℚ
  positions : List (String × EnginePosition)
  equity : ℚ
  trades : List Trade
deriving DecidableEq, Repr

/-- Constructor parameters of `BacktestEngine.__init__`. -/
structure EngineParams where
  initial_capital : ℚ
  commission : ℚ
  slippage : ℚ
  risk : RiskParams
deriving DecidableEq, Repr

namespace BacktestEngine

/-- Dictionary lookup `portfolio['positions'][symbol]` /
`symbol in portfolio['positions']`. -/
def lookupPos (ps : List (String × EnginePosition)) (symbol : String) :
    Option EnginePosition :=
  match ps with
  | [] => none
  | (s, p) :: rest => if s = symbol then some p else lookupPos rest symbol

/-- Dictionary assignment `portfolio['positions'][symbol] = pos`
(overwrites an existing entry, else appends). -/
def setPos (ps : List (String × EnginePosition)) (symbol : String)
    (pos : EnginePosition) : List (String × EnginePosition) :=
  match ps with
  | [] => [(symbol, pos)]
  | (s, p) :: rest =>
      if s = symbol then (s, pos) :: rest else (s, p) :: setPos rest symbol pos

/-- Dictionary deletion `del portfolio['positions'][symbol]`. -/
def delPos (ps : List (String × EnginePosition)) (symbol : String) :
    List (String × EnginePosition) :=
  match ps with
  | [] => []
  | (s, p) :: rest =>
      if s = symbol then rest else (s, p) :: delPos rest symbol

/-- The body of the `for symbol, signal in signals.items()` loop of
`BacktestEngine._execute_trades`, for one `(symbol, signal)` pair, with
the volatility taken as the input `current_bar.vol`.  In the source the
volatility expression raises `AttributeError` on every nonzero signal;
that behaviour is modelled by `execute_signal_checked` below. -/
def execute_signal (eng : EngineParams) (current_bar : Bar) (pf : Portfolio)
    (symbol : String) (signal : ℤ) : Portfolio :=
  if signal = 0 then pf
  else
    let current_price := current_bar.close
    let position_size := RiskManager.calculate_position_size eng.risk
      pf.equity current_price current_bar.vol
    let execution_price :=
      current_price * (if signal > 0 then 1 + eng.slippage else 1 - eng.slippage)
    let commission := position_size * execution_price * eng.commission
    if signal > 0 then
      if pf.cash ≥ position_size * execution_price + commission then
        let newPos : EnginePosition :=
          { size := position_size, entry_price := execution_price }
        let trade : Trade :=
          { symbol := symbol, side := "buy", price := execution_price,
            size := position_size, commission := commission }
        { pf with
          cash := pf.cash - (position_size * execution_price + commission),
          positions := setPos pf.positions symbol newPos,
          trades := pf.trades ++ [trade] }
      else pf
    else
      match lookupPos pf.positions symbol with
      | some position =>
          let trade : Trade :=
            { symbol := symbol, side := "sell", price := execution_price,
              size := position.size, commission := commission }
          { pf with
            cash := pf.cash + (position.size * execution_price - commission),
            positions := delPos pf.positions symbol,
            trades := pf.trades ++ [trade] }
      | none => pf

/-- `BacktestEngine._execute_trades(signals, current_bar, portfolio)`:
iterate `execute_signal` over the `signals` dict (modelled as an
association list, iterated in order). -/
def execute_trades (eng : EngineParams) (signals : List (String × ℤ))
    (current_bar : Bar) (pf : Portfolio) : Portfolio :=
  signals.foldl (fun pf sp => execute_signal eng current_bar pf sp.1 sp.2) pf

/-- Sum of `position['size'] * current_bar['close']` over the open
positions. -/
def positionsValue (ps : List (String × EnginePosition)) (close : ℚ) : ℚ :=
  match ps with
  | [] => 0
  | (_, p) :: rest => p.size * close + positionsValue rest close

/-- `BacktestEngine._update_portfolio(portfolio, current_bar)`:
`portfolio['equity'] = portfolio['cash'] + Σ size * close`. -/
def update_portfolio (pf : Portfolio) (current_bar : Bar) : Portfolio :=
  { pf with equity := pf.cash + positionsValue pf.positions current_bar.close }

/-- A strategy, as used by `BacktestEngine.run`: from the data seen so far
(`data.iloc[:i+1]`) to a signals dict.  (The Python code also passes
`self.params`; a strategy instance with fixed parameters is a function of
the data alone.) -/
def Strategy := List Bar → List (String × ℤ)

/-- The body of the `for i in range(len(data))` loop of
`BacktestEngine.run`, processing the remaining bars `rest`; `hist` is the
list of bars already processed, so that the slice `data.iloc[:i+1]` passed
to `generate_signals` is `hist ++ [bar]`.  `ec` accumulates
`self.equity_curve`.  The `if signals:` test skips `_execute_trades` when
the signals dict is empty. -/
def runAux (eng : EngineParams) (strategy : Strategy) :
    Portfolio → List ℚ → List Bar → List Bar → Portfolio × List ℚ
  | pf, ec, _, [] => (pf, ec)
  | pf, ec, hist, bar :: rest =>
      let seen := hist ++ [bar]
      let signals := strategy seen
      let pf1 := if signals = [] then pf else execute_trades eng signals bar pf
      let pf2 := update_portfolio pf1 bar
      runAux eng strategy pf2 (ec ++ [pf2.equity]) seen rest

/-- `BacktestEngine.run(data, strategy)`: portfolio initialised to
`{'cash': initial_capital, 'positions': {}, 'equity': initial_capital}`,
then the bar loop.  Returns the final portfolio (with the trades list) and
the accumulated equity curve. -/
def run (eng : EngineParams) (strategy : Strategy) (data : List Bar) :
    Portfolio × List ℚ :=
  runAux eng strategy
    { cash := eng.initial_capital, positions := [],
      equity := eng.initial_capital, trades := [] }
    [] [] data

end BacktestEngine

/-! ### C1

`_execute_trades` computes the volatility argument of
`calculate_position_size` as `current_bar['close'].pct_change().std()`.
`current_bar = data.iloc[i]` is a row Series, so `current_bar['close']`
is a scalar float, and a scalar float has no `pct_change` attribute:
evaluating the expression raises `AttributeError`.  The loop reaches the
expression for every nonzero signal (the `signal == 0` `continue`
precedes it and both the buy and the sell branch come after it), so no
trade is ever executed.  The checked embedding keeps this error path. -/

namespace BacktestEngine

/-- The expression `current_bar['close'].pct_change().std()` evaluated as
the source does: an attribute access on a scalar float, raising
`AttributeError`. -/
def scalar_pct_change_std (close : ℚ) : Except String ℚ :=
  let _ := close
  Except.error "AttributeError: 'float' object has no attribute 'pct_change'"

/-- The loop body of `_execute_trades` with the volatility expression
evaluated as in the source: `signal == 0` skips the symbol; any other
signal evaluates `scalar_pct_change_std` and propagates its
`AttributeError`.  If a volatility value were obtained, the body would
continue as `execute_signal` with it. -/
def execute_signal_checked (eng : EngineParams) (current_bar : Bar)
    (pf : Portfolio) (symbol : String) (signal : ℤ) :
    Except String Portfolio :=
  if signal = 0 then Except.ok pf
  else
    match scalar_pct_change_std current_bar.close with
    | Except.error e => Except.error e
    | Except.ok volatility =>
        Except.ok (execute_signal eng { current_bar with vol := volatility }
          pf symbol signal)

/-- `_execute_trades` over the signals dict, propagating the exception. -/
def execute_trades_checked (eng : EngineParams)
    (signals : List (String × ℤ)) (current_bar : Bar) (pf : Portfolio) :
    Except String Portfolio :=
  match signals with
  | [] => Except.ok pf
  | sp :: rest =>
      match execute_signal_checked eng current_bar pf sp.1 sp.2 with
      | Except.error e => Except.error e
      | Except.ok pf1 => execute_trades_checked eng rest current_bar pf1

/-- The bar loop of `run`, propagating the exception. -/
def runAux_checked (eng : EngineParams) (strategy : Strategy) :
    Portfolio → List ℚ → List Bar → List Bar →
      Except String (Portfolio × List ℚ)
  | pf, ec, _, [] => Except.ok (pf, ec)
  | pf, ec, hist, bar :: rest =>
      let seen := hist ++ [bar]
      let signals := strategy seen
      match (if signals = [] then Except.ok pf
        else execute_trades_checked eng signals bar pf) with
      | Except.error e => Except.error e
      | Except.ok pf1 =>
          let pf2 := update_portfolio pf1 bar
          runAux_checked eng strategy pf2 (ec ++ [pf2.equity]) seen rest

/-- `BacktestEngine.run` with the exception propagated. -/
def run_checked (eng : EngineParams) (strategy : Strategy)
    (data : List Bar) : Except String (Portfolio × List ℚ) :=
  runAux_checked eng strategy
    { cash := eng.initial_capital, positions := [],
      equity := eng.initial_capital, trades := [] }
    [] [] data

end BacktestEngine

/-- **C1.** The claim says that on a nonzero-signal bar `_execute_trades`
obtains a position size from `calculate_position_size`, applies slippage
and commission, and debits cash on a covered buy.  The code cannot do any
of this: at the failing input — a single bar with close 1 and a buy
signal for symbol A, with the engine's default parameters — the run
raises `AttributeError` at the volatility expression
`current_bar['close'].pct_change().std()` before any sizing, trade or
cash movement takes place. -/
theorem C1_attribute_error :
    BacktestEngine.run_checked
      { initial_capital := 100000, commission := 1/1000, slippage := 1/2000,
        risk := defaultRiskParams }
      (fun _ => [("A", 1)]) [⟨1, 0⟩] =
      Except.error "AttributeError: 'float' object has no attribute 'pct_change'" :=
  rfl

/-! ## Strategies

`pandas` helpers shared by both `MovingAverageCrossover` implementations.
A rolling mean / pct-change value that pandas leaves as `NaN` is modelled
as `none`; pandas comparisons involving `NaN` are `False`, which the
`match`es below reproduce. -/

/-- `series.rolling(window=w).mean()` at index `i`: the mean of entries
`i-w+1 .. i` once `w` entries are available, `NaN` (`none`) before. -/
def rollingMean (w : Nat) (close : List ℚ) (i : Nat) : Option ℚ :=
  if 0 < w ∧ w ≤ i + 1 then some (((close.drop (i + 1 - w)).take w).sum / w)
  else none

/-- `series.pct_change()` at index `i`: `close[i]/close[i-1] - 1`, `NaN`
(`none`) at index 0. -/
def pct_change (close : List ℚ) (i : Nat) : Option ℚ :=
  match i with
  | 0 => none
  | j + 1 => some (close.getD (j + 1) 0 / close.getD j 0 - 1)

namespace Trading

/-- `src/trading/strategy.py`, `MovingAverageCrossover.generate_signals`
(the resulting `signal` column): start from 0, set 1 where
`short_ma > long_ma`, set -1 where `short_ma < long_ma`, then reset to 0
where `abs(close.pct_change()) < signal_threshold`.  Comparisons against a
`NaN` moving average or `NaN` pct-change are `False` and leave the signal
as it was. -/
def generate_signals (short_window long_window : Nat) (signal_threshold : ℚ)
    (close : List ℚ) : List ℤ :=
  (List.range close.length).map (fun i =>
    let short_ma := rollingMean short_window close i
    let long_ma := rollingMean long_window close i
    let crossover : ℤ :=
      match short_ma, long_ma with
      | some a, some b => if a > b then 1 else if a < b then -1 else 0
      | _, _ => 0
    match pct_change close i with
    | some pc => if |pc| < signal_threshold then 0 else crossover
    | none => crossover)

end Trading

namespace StrategiesMA

/-- `src/strategies/moving_average.py`,
`MovingAverageCrossover.generate_signals` (the resulting `signal` column):
initialised to 0.0; rows from `long_window` on get
`np.where(short_mavg > long_mavg, 1.0, 0.0)` (a comparison with `NaN`
yields `False`, hence 0.0); rows before `long_window` keep 0.0. -/
def generate_signals (short_window long_window : Nat) (close : List ℚ) :
    List ℚ :=
  (List.range close.length).map (fun i =>
    if i < long_window then 0
    else
      match rollingMean short_window close i, rollingMean long_window close i with
      | some a, some b => if a > b then 1 else 0
      | _, _ => 0)

/-- Every entry of the `signal` column of
`src/strategies/moving_average.py` is 0 or 1. -/
theorem generate_signals_mem (short_window long_window : Nat)
    (close : List ℚ) (s : ℚ) (hs : s ∈ generate_signals short_window long_window close) :
    s = 0 ∨ s = 1 := by
  unfold generate_signals at hs
  obtain ⟨i, _, rfl⟩ := List.mem_map.mp hs
  split
  · exact Or.inl rfl
  · split
    · split
      · exact Or.inr rfl
      · exact Or.inl rfl
    · exact Or.inl rfl

end StrategiesMA

/-! ### C2 -/

/-- **C2, counterexample.**  The claim says every `generate_signals`
produces each of the three values 1, 0, -1 for some input; but the
implementation in `src/strategies/moving_average.py` never assigns the
sell value -1 to any bar of its `signal` column, for any windows and any
input data. -/
theorem C2_counterexample :
    ¬ ∃ (short_window long_window : Nat) (close : List ℚ) (i : Nat),
      (StrategiesMA.generate_signals short_window long_window close).getD i 0
        = -1 := by
  rintro ⟨sw, lw, close, i, h⟩
  by_cases hi : i < (StrategiesMA.generate_signals sw lw close).length
  · rw [List.getD_eq_getElem _ _ hi] at h
    have hmem : (StrategiesMA.generate_signals sw lw close)[i] ∈
        StrategiesMA.generate_signals sw lw close := List.getElem_mem hi
    rcases StrategiesMA.generate_signals_mem sw lw close _ hmem with h0 | h1 <;>
      rw [h] at * <;> norm_num at *
  · rw [List.getD_eq_default _ _ (le_of_not_lt hi)] at h
    norm_num at h

/-- **C2, amended.**  The `signal` column of
`src/trading/strategy.py`'s `MovingAverageCrossover.generate_signals`
always lies in {1, 0, -1} and each of the three values is producible by
some input; the `signal` column of the `src/strategies/moving_average.py`
implementation instead only takes the values {0.0, 1.0} (its buy/hold
part), and never emits the sell value -1. -/
theorem C2_signal_values :
    (∀ (sw lw : Nat) (thr : ℚ) (close : List ℚ),
      ∀ s ∈ Trading.generate_signals sw lw thr close, s = -1 ∨ s = 0 ∨ s = 1) ∧
    Trading.generate_signals 1 2 (1/50) [1, 2] = [0, 1] ∧
    Trading.generate_signals 1 2 (1/50) [2, 1] = [0, -1] ∧
    (∀ (sw lw : Nat) (close : List ℚ),
      ∀ s ∈ StrategiesMA.generate_signals sw lw close, s = 0 ∨ s = 1) := by
  refine ⟨?_, ?_, ?_, fun sw lw close s hs =>
      StrategiesMA.generate_signals_mem sw lw close s hs⟩
  case refine_2 =>
    norm_num [Trading.generate_signals, rollingMean, pct_change, List.range_succ]
  case refine_3 =>
    norm_num [Trading.generate_signals, rollingMean, pct_change, List.range_succ]
    rw [abs_of_pos (show (0:ℚ) < 1/2 by norm_num)]
    norm_num
  intro sw lw thr close s hs
  unfold Trading.generate_signals at hs
  obtain ⟨i, _, rfl⟩ := List.mem_map.mp hs
  dsimp only
  rcases pct_change close i with _ | pc
  · rcases rollingMean sw close i with _ | a <;>
      rcases rollingMean lw close i with _ | b
    · exact Or.inr (Or.inl rfl)
    · exact Or.inr (Or.inl rfl)
    · exact Or.inr (Or.inl rfl)
    · dsimp only
      split
      · exact Or.inr (Or.inr rfl)
      · split
        · exact Or.inl rfl
        · exact Or.inr (Or.inl rfl)
  · dsimp only
    split
    · exact Or.inr (Or.inl rfl)
    · rcases rollingMean sw close i with _ | a <;>
        rcases rollingMean lw close i with _ | b
      · exact Or.inr (Or.inl rfl)
      · exact Or.inr (Or.inl rfl)
      · exact Or.inr (Or.inl rfl)
      · dsimp only
        split
        · exact Or.inr (Or.inr rfl)
        · split
          · exact Or.inl rfl
          · exact Or.inr (Or.inl rfl)

/-- Witness for C2: the buy bar of `[1, 2]` under the trading-strategy
implementation is in {-1, 0, 1}. -/
theorem C2_witness :
    (1 : ℤ) ∈ Trading.generate_signals 1 2 (1/50) [1, 2] ∧
    ((1 : ℤ) = -1 ∨ (1 : ℤ) = 0 ∨ (1 : ℤ) = 1) := by
  have hmem : (1 : ℤ) ∈ Trading.generate_signals 1 2 (1/50) [1, 2] := by
    rw [C2_signal_values.2.1]
    simp
  exact ⟨hmem, C2_signal_values.1 1 2 (1/50) [1, 2] 1 hmem⟩

/-! ## `src/backtest/risk_metrics.py` — drawdown part of `calculate_risk_metrics`

The function first does `returns = returns.dropna()`; the model takes the
already-clean list of returns.  `pandas` series combinators used by the
drawdown block: -/

/-- `series.cumprod()` with running product `acc`. -/
def cumprodAux (acc : ℚ) : List ℚ → List ℚ
  | [] => []
  | x :: xs => (acc * x) :: cumprodAux (acc * x) xs

/-- `series.cumprod()`. -/
def cumprod (l : List ℚ) : List ℚ := cumprodAux 1 l

/-- `series.cummax()` with running maximum `m`. -/
def cummaxAux (m : ℚ) : List ℚ → List ℚ
  | [] => []
  | x :: xs => max m x :: cummaxAux (max m x) xs

/-- `series.cummax()`. -/
def cummax : List ℚ → List ℚ
  | [] => []
  | x :: xs => x :: cummaxAux x xs

/-- `series.min()` for a nonempty series (the claims only concern
non-empty inputs; pandas returns `NaN` on an empty one, modelled as 0). -/
def seriesMin : List ℚ → ℚ
  | [] => 0
  | x :: xs => xs.foldl min x

namespace RiskMetrics

/-- The `max_drawdown` entry computed by `calculate_risk_metrics`:
`cumulative = (1 + returns).cumprod(); highwater = cumulative.cummax();
drawdown = (cumulative - highwater) / highwater;
metrics['max_drawdown'] = drawdown.min()`. -/
def max_drawdown (returns : List ℚ) : ℚ :=
  let cumulative := cumprod (returns.map (fun r => 1 + r))
  let highwater := cummax cumulative
  let drawdown := List.zipWith (fun c h => (c - h) / h) cumulative highwater
  seriesMin drawdown

/-- The formula in the words of the claim: the minimum over all prefixes of
cumulative-product(1+r) divided by its running maximum, **minus 1** (the
cumulative-product series over prefixes is `cumprod`, its running maximum
`cummax`). -/
def spec_max_drawdown (returns : List ℚ) : ℚ :=
  let cumulative := cumprod (returns.map (fun r => 1 + r))
  let highwater := cummax cumulative
  seriesMin (List.zipWith (fun c h => c / h - 1) cumulative highwater)

end RiskMetrics

/-- All entries of `cumprodAux acc l` are positive when `acc` and all
entries of `l` are. -/
theorem cumprodAux_pos (l : List ℚ) : ∀ (acc : ℚ), 0 < acc →
    (∀ x ∈ l, 0 < x) → ∀ y ∈ cumprodAux acc l, 0 < y := by
  induction l with
  | nil => intro acc _ _ y hy; simp [cumprodAux] at hy
  | cons x xs ih =>
      intro acc hacc hl y hy
      rw [cumprodAux] at hy
      have hx : 0 < x := hl x (List.mem_cons_self x xs)
      rcases List.mem_cons.mp hy with h | h
      · rw [h]; exact mul_pos hacc hx
      · exact ih (acc * x) (mul_pos hacc hx)
          (fun z hz => hl z (List.mem_cons_of_mem x hz)) y h

/-- Over positive data with a positive running maximum, the code's
drawdown formula `(c - h)/h` agrees with the claim's `c/h - 1` entrywise,
and every entry is `≤ 0`. -/
theorem drawdown_zipWith (l : List ℚ) : ∀ (m : ℚ), 0 < m →
    (∀ x ∈ l, 0 < x) →
    List.zipWith (fun c h => (c - h) / h) l (cummaxAux m l) =
      List.zipWith (fun c h => c / h - 1) l (cummaxAux m l) ∧
    ∀ d ∈ List.zipWith (fun c h => (c - h) / h) l (cummaxAux m l), d ≤ 0 := by
  induction l with
  | nil => intro m _ _; simp [cummaxAux]
  | cons x xs ih =>
      intro m hm hl
      have hx : 0 < x := hl x (List.mem_cons_self x xs)
      have hmax : 0 < max m x := lt_max_of_lt_left hm
      have hmaxne : max m x ≠ 0 := ne_of_gt hmax
      have htail := ih (max m x) hmax
        (fun z hz => hl z (List.mem_cons_of_mem x hz))
      rw [cummaxAux]
      constructor
      · simp only [List.zipWith]
        rw [htail.1]
        congr 1
        field_simp
      · intro d hd
        simp only [List.zipWith] at hd
        rcases List.mem_cons.mp hd with h | h
        · rw [h]
          have hnum : x - max m x ≤ 0 := sub_nonpos.mpr (le_max_right m x)
          exact div_nonpos_iff.mpr (Or.inr ⟨hnum, le_of_lt hmax⟩)
        · exact htail.2 d h

/-- Folding `min` keeps a nonpositive accumulator nonpositive. -/
theorem foldl_min_nonpos (l : List ℚ) : ∀ (x : ℚ), x ≤ 0 →
    l.foldl min x ≤ 0 := by
  induction l with
  | nil => intro x hx; simpa using hx
  | cons y ys ih =>
      intro x hx
      rw [List.foldl_cons]
      exact ih (min x y) (le_trans (min_le_left x y) hx)

/-! ### C7 -/

/-- **C7.** For every non-empty returns series (`dropna` already applied)
whose returns all exceed -100% (so that the cumulative products and their
running maxima are positive and the division is the one pandas performs),
the `max_drawdown` computed by `calculate_risk_metrics` equals the minimum
over all prefixes of cumulative-product(1+r) divided by its running
maximum, minus 1 — and this value is `≤ 0`. -/
theorem C7_max_drawdown (returns : List ℚ) (hne : returns ≠ [])
    (hpos : ∀ r ∈ returns, 0 < 1 + r) :
    RiskMetrics.max_drawdown returns = RiskMetrics.spec_max_drawdown returns ∧
    RiskMetrics.max_drawdown returns ≤ 0 := by
  obtain ⟨r, rs, rfl⟩ := List.exists_cons_of_ne_nil hne
  have hr : (0:ℚ) < 1 + r := hpos r (List.mem_cons_self r rs)
  have hc : (0:ℚ) < 1 * (1 + r) := by rw [one_mul]; exact hr
  have hcs : ∀ y ∈ cumprodAux (1 * (1 + r)) (rs.map (fun x => 1 + x)), 0 < y := by
    apply cumprodAux_pos _ _ hc
    intro z hz
    obtain ⟨x, hx, rfl⟩ := List.mem_map.mp hz
    exact hpos x (List.mem_cons_of_mem r hx)
  have hdd := drawdown_zipWith _ _ hc hcs
  constructor
  · simp only [RiskMetrics.max_drawdown, RiskMetrics.spec_max_drawdown, cumprod,
      List.map_cons, cumprodAux, cummax, List.zipWith_cons_cons, seriesMin]
    rw [hdd.1, sub_self, zero_div, div_self (ne_of_gt hc), sub_self]
  · simp only [RiskMetrics.max_drawdown, cumprod, List.map_cons, cumprodAux,
      cummax, List.zipWith_cons_cons, seriesMin]
    exact foldl_min_nonpos _ _ (by rw [sub_self, zero_div])

/-- Witness for C7 on the returns series `[0.1, -0.5]`. -/
theorem C7_witness :
    RiskMetrics.max_drawdown [1/10, -1/2] =
      RiskMetrics.spec_max_drawdown [1/10, -1/2] ∧
    RiskMetrics.max_drawdown [1/10, -1/2] ≤ 0 :=
  C7_max_drawdown [1/10, -1/2] (by simp)
    (by intro r hr; fin_cases hr <;> norm_num)

/-! ## `src/trading/risk_manager.py` — the stateful `RiskManager`

This second `RiskManager` keeps mutable state: `current_capital`, a
`positions` dict and a `trade_history` list. -/

/-- An entry of `self.positions` as built by `update_position`. -/
structure TPosition where
  size : ℚ
  entry_price : ℚ
  side : String
  stop_loss : ℚ
  take_profit : ℚ
  trailing_stop : ℚ
deriving DecidableEq, Repr

/-- An entry of `self.trade_history` as built by `close_position`
(`timestamp` from `pd.Timestamp.now()` is wall-clock nondeterminism and is
omitted; no claim mentions it). -/
structure TTrade where
  symbol : String
  side : String
  entry_price : ℚ
  exit_price : ℚ
  size : ℚ
  pnl : ℚ
deriving DecidableEq, Repr

/-- The mutable state of the trading `RiskManager`. -/
structure TradingRMState where
  current_capital : ℚ
  positions : List (String × TPosition)
  trade_history : List TTrade
deriving DecidableEq, Repr

namespace TradingRM

/-- `symbol in self.positions` / `self.positions[symbol]`. -/
def lookupT (ps : List (String × TPosition)) (symbol : String) :
    Option TPosition :=
  match ps with
  | [] => none
  | (s, p) :: rest => if s = symbol then some p else lookupT rest symbol

/-- `self.positions[symbol] = pos` (overwrite or append). -/
def setT (ps : List (String × TPosition)) (symbol : String)
    (pos : TPosition) : List (String × TPosition) :=
  match ps with
  | [] => [(symbol, pos)]
  | (s, p) :: rest =>
      if s = symbol then (s, pos) :: rest else (s, p) :: setT rest symbol pos

/-- `del self.positions[symbol]`. -/
def delT (ps : List (String × TPosition)) (symbol : String) :
    List (String × TPosition) :=
  match ps with
  | [] => []
  | (s, p) :: rest =>
      if s = symbol then rest else (s, p) :: delT rest symbol

/-- The dict returned by `update_position`. -/
inductive UpdateAction where
  | opened (position : TPosition)
  | closed (reason : String) (position : TPosition)
  | hold (position : TPosition)
deriving DecidableEq, Repr

/-- `RiskManager.update_position(symbol, price, position_size, side)`.
When the symbol is new, a position dict is created with stop-loss /
take-profit / trailing-stop prices set from `side`.  Otherwise the
trailing stop of the stored position is updated in place (for `side ==
'buy'`: raised to `price*(1-trailing_stop_pct)` when `price` exceeds the
entry price and the new stop exceeds the current one; for the other side:
lowered symmetrically), and then the stop-loss / take-profit checks pick
the returned action.  The mutation of `self.positions[symbol]` happens
before the checks, so the resulting state is the same whichever action is
returned. -/
def update_position (rm : RiskParams) (st : TradingRMState) (symbol : String)
    (price : ℚ) (position_size : ℚ) (side : String) :
    TradingRMState × UpdateAction :=
  match lookupT st.positions symbol with
  | none =>
      let pos : TPosition :=
        { size := position_size
          entry_price := price
          side := side
          stop_loss := if side = "buy" then price * (1 - rm.stop_loss_pct)
            else price * (1 + rm.stop_loss_pct)
          take_profit := if side = "buy" then price * (1 + rm.take_profit_pct)
            else price * (1 - rm.take_profit_pct)
          trailing_stop := if side = "buy" then price * (1 - rm.trailing_stop_pct)
            else price * (1 + rm.trailing_stop_pct) }
      ({ st with positions := setT st.positions symbol pos },
        UpdateAction.opened pos)
  | some position =>
      let position :=
        if side = "buy" then
          if price > position.entry_price then
            let new_stop := price * (1 - rm.trailing_stop_pct)
            if new_stop > position.trailing_stop then
              { position with trailing_stop := new_stop }
            else position
          else position
        else
          if price < position.entry_price then
            let new_stop := price * (1 + rm.trailing_stop_pct)
            if new_stop < position.trailing_stop then
              { position with trailing_stop := new_stop }
            else position
          else position
      let st' := { st with positions := setT st.positions symbol position }
      let action :=
        if side = "buy" then
          if price ≤ position.stop_loss ∨ price ≤ position.trailing_stop then
            UpdateAction.closed "stop_loss" position
          else if price ≥ position.take_profit then
            UpdateAction.closed "take_profit" position
          else UpdateAction.hold position
        else
          if price ≥ position.stop_loss ∨ price ≥ position.trailing_stop then
            UpdateAction.closed "stop_loss" position
          else if price ≤ position.take_profit then
            UpdateAction.closed "take_profit" position
          else UpdateAction.hold position
      (st', action)

/-- The dict returned by `close_position`: either
`{'error': 'Position not found'}` or the trade record. -/
inductive CloseResult where
  | error (msg : String)
  | trade (t : TTrade)
deriving DecidableEq, Repr

/-- `RiskManager.close_position(symbol, price)`. -/
def close_position (st : TradingRMState) (symbol : String) (price : ℚ) :
    CloseResult × TradingRMState :=
  match lookupT st.positions symbol with
  | none => (CloseResult.error "Position not found", st)
  | some position =>
      let pnl :=
        if position.side = "buy" then (price - position.entry_price) * position.size
        else (position.entry_price - price) * position.size
      let trade : TTrade :=
        { symbol := symbol
          side := position.side
          entry_price := position.entry_price
          exit_price := price
          size := position.size
          pnl := pnl }
      (CloseResult.trade trade,
        { current_capital := st.current_capital + pnl
          positions := delT st.positions symbol
          trade_history := st.trade_history ++ [trade] })

/-- Iterated `update_position` calls for one symbol with a fixed size and
side, at a sequence of prices. -/
def update_position_fold (rm : RiskParams) (symbol : String)
    (position_size : ℚ) (side : String) (st : TradingRMState)
    (prices : List ℚ) : TradingRMState :=
  prices.foldl
    (fun s p => (update_position rm s symbol p position_size side).1) st

/-- Writing a symbol and then looking it up yields the written position. -/
theorem lookupT_setT (ps : List (String × TPosition)) (symbol : String)
    (pos : TPosition) : lookupT (setT ps symbol pos) symbol = some pos := by
  induction ps with
  | nil => simp [setT, lookupT]
  | cons hd tl ih =>
      obtain ⟨s, p⟩ := hd
      by_cases hs : s = symbol
      · simp [setT, lookupT, hs]
      · simp [setT, lookupT, hs, ih]

end TradingRM

namespace TradingRM

/-- One `update_position` call with side `'buy'` on an existing position:
the stored position keeps its trailing stop unless both `price >
entry_price` and `price*(1-trailing_stop_pct) > trailing_stop`, in which
case the trailing stop is raised to `price*(1-trailing_stop_pct)`. -/
theorem step_buy (rm : RiskParams) (st : TradingRMState) (symbol : String)
    (price position_size : ℚ) (pos : TPosition)
    (h : lookupT st.positions symbol = some pos) :
    lookupT ((update_position rm st symbol price position_size "buy").1).positions
        symbol =
      some (if price > pos.entry_price ∧
              price * (1 - rm.trailing_stop_pct) > pos.trailing_stop
            then { pos with trailing_stop := price * (1 - rm.trailing_stop_pct) }
            else pos) := by
  unfold update_position
  rw [h]
  have hside : (("buy" : String) = "buy") := rfl
  simp only [if_pos hside]
  split_ifs <;>
    first
      | exact lookupT_setT st.positions symbol _
      | (exfalso; tauto)

/-- One `update_position` call with side `'sell'` on an existing position:
the trailing stop is lowered to `price*(1+trailing_stop_pct)` only when
`price < entry_price` and the new stop is below the current one. -/
theorem step_sell (rm : RiskParams) (st : TradingRMState) (symbol : String)
    (price position_size : ℚ) (pos : TPosition)
    (h : lookupT st.positions symbol = some pos) :
    lookupT ((update_position rm st symbol price position_size "sell").1).positions
        symbol =
      some (if price < pos.entry_price ∧
              price * (1 + rm.trailing_stop_pct) < pos.trailing_stop
            then { pos with trailing_stop := price * (1 + rm.trailing_stop_pct) }
            else pos) := by
  unfold update_position
  rw [h]
  have hside : ¬ (("sell" : String) = "buy") := by decide
  simp only [if_neg hside]
  split_ifs <;>
    first
      | exact lookupT_setT st.positions symbol _
      | (exfalso; tauto)

/-- Folding buy-side `update_position` calls never lowers the trailing
stop of an open position. -/
theorem fold_buy_mono (rm : RiskParams) (symbol : String)
    (position_size : ℚ) :
    ∀ (prices : List ℚ) (st : TradingRMState) (pos : TPosition),
      lookupT st.positions symbol = some pos →
      ∃ pos', lookupT
          (update_position_fold rm symbol position_size "buy" st prices).positions
          symbol = some pos' ∧
        pos.trailing_stop ≤ pos'.trailing_stop := by
  intro prices
  induction prices with
  | nil => intro st pos h; exact ⟨pos, h, le_refl _⟩
  | cons p ps ih =>
      intro st pos h
      have hstep := step_buy rm st symbol p position_size pos h
      obtain ⟨pos', h', hle⟩ := ih _ _ hstep
      refine ⟨pos', ?_, le_trans ?_ hle⟩
      · simpa [update_position_fold] using h'
      · by_cases hc : p > pos.entry_price ∧
            p * (1 - rm.trailing_stop_pct) > pos.trailing_stop
        · rw [if_pos hc]
          exact le_of_lt hc.2
        · rw [if_neg hc]

/-- Folding sell-side `update_position` calls never raises the trailing
stop of an open position. -/
theorem fold_sell_mono (rm : RiskParams) (symbol : String)
    (position_size : ℚ) :
    ∀ (prices : List ℚ) (st : TradingRMState) (pos : TPosition),
      lookupT st.positions symbol = some pos →
      ∃ pos', lookupT
          (update_position_fold rm symbol position_size "sell" st prices).positions
          symbol = some pos' ∧
        pos'.trailing_stop ≤ pos.trailing_stop := by
  intro prices
  induction prices with
  | nil => intro st pos h; exact ⟨pos, h, le_refl _⟩
  | cons p ps ih =>
      intro st pos h
      have hstep := step_sell rm st symbol p position_size pos h
      obtain ⟨pos', h', hle⟩ := ih _ _ hstep
      refine ⟨pos', ?_, le_trans hle ?_⟩
      · simpa [update_position_fold] using h'
      · by_cases hc : p < pos.entry_price ∧
            p * (1 + rm.trailing_stop_pct) < pos.trailing_stop
        · rw [if_pos hc]
          exact le_of_lt hc.2
        · rw [if_neg hc]

end TradingRM

/-! ### C9, C10 -/

/-- **C9.** For an open long (`'buy'`) position, the trailing stop
recorded by `update_position` is monotonically non-decreasing across any
sequence of calls with arbitrary prices: a single call raises it to
`price*(1-trailing_stop_pct)` only when that exceeds the current trailing
stop (and the price exceeds the entry price), and never lowers it;
symmetrically, for a short (`'sell'`) position it is non-increasing. -/
theorem C9_trailing_stop (rm : RiskParams) (st : TradingRMState)
    (symbol : String) (position_size : ℚ) (pos : TPosition)
    (h : TradingRM.lookupT st.positions symbol = some pos) :
    (∀ prices : List ℚ, ∃ pos',
      TradingRM.lookupT (TradingRM.update_position_fold rm symbol
          position_size "buy" st prices).positions symbol = some pos' ∧
      pos.trailing_stop ≤ pos'.trailing_stop) ∧
    (∀ price : ℚ, ∃ pos1,
      TradingRM.lookupT ((TradingRM.update_position rm st symbol price
          position_size "buy").1).positions symbol = some pos1 ∧
      (pos1 = pos ∨ (pos1.trailing_stop = price * (1 - rm.trailing_stop_pct) ∧
        pos.trailing_stop < pos1.trailing_stop))) ∧
    (∀ prices : List ℚ, ∃ pos2,
      TradingRM.lookupT (TradingRM.update_position_fold rm symbol
          position_size "sell" st prices).positions symbol = some pos2 ∧
      pos2.trailing_stop ≤ pos.trailing_stop) ∧
    (∀ price : ℚ, ∃ pos3,
      TradingRM.lookupT ((TradingRM.update_position rm st symbol price
          position_size "sell").1).positions symbol = some pos3 ∧
      (pos3 = pos ∨ (pos3.trailing_stop = price * (1 + rm.trailing_stop_pct) ∧
        pos3.trailing_stop < pos.trailing_stop))) := by
  refine ⟨fun prices => TradingRM.fold_buy_mono rm symbol position_size prices st pos h,
    ?_,
    fun prices => TradingRM.fold_sell_mono rm symbol position_size prices st pos h,
    ?_⟩
  · intro price
    have hstep := TradingRM.step_buy rm st symbol price position_size pos h
    by_cases hc : price > pos.entry_price ∧
        price * (1 - rm.trailing_stop_pct) > pos.trailing_stop
    · rw [if_pos hc] at hstep
      exact ⟨_, hstep, Or.inr ⟨rfl, hc.2⟩⟩
    · rw [if_neg hc] at hstep
      exact ⟨pos, hstep, Or.inl rfl⟩
  · intro price
    have hstep := TradingRM.step_sell rm st symbol price position_size pos h
    by_cases hc : price < pos.entry_price ∧
        price * (1 + rm.trailing_stop_pct) < pos.trailing_stop
    · rw [if_pos hc] at hstep
      exact ⟨_, hstep, Or.inr ⟨rfl, hc.2⟩⟩
    · rw [if_neg hc] at hstep
      exact ⟨pos, hstep, Or.inl rfl⟩

/-- Witness for C9: a long BTC position with trailing stop 99, updated at
prices 101 and 102, still has a trailing stop of at least 99. -/
theorem C9_witness :
    ∃ pos', TradingRM.lookupT
        (TradingRM.update_position_fold defaultRiskParams "BTC" 1 "buy"
          ⟨1000, [("BTC", ⟨1, 100, "buy", 98, 104, 99⟩)], []⟩
          [101, 102]).positions "BTC" = some pos' ∧
      (99 : ℚ) ≤ pos'.trailing_stop :=
  (C9_trailing_stop defaultRiskParams
    ⟨1000, [("BTC", ⟨1, 100, "buy", 98, 104, 99⟩)], []⟩
    "BTC" 1 ⟨1, 100, "buy", 98, 104, 99⟩ rfl).1 [101, 102]

/-- **C10.** For a symbol with no open position, `close_position` returns
the error dict `{'error': 'Position not found'}` and leaves the state —
`current_capital`, `positions` and `trade_history` — exactly unchanged. -/
theorem C10_close_position (st : TradingRMState) (symbol : String)
    (price : ℚ) (h : TradingRM.lookupT st.positions symbol = none) :
    TradingRM.close_position st symbol price =
      (TradingRM.CloseResult.error "Position not found", st) ∧
    (TradingRM.close_position st symbol price).2.current_capital =
      st.current_capital ∧
    (TradingRM.close_position st symbol price).2.positions = st.positions ∧
    (TradingRM.close_position st symbol price).2.trade_history =
      st.trade_history := by
  have hmain : TradingRM.close_position st symbol price =
      (TradingRM.CloseResult.error "Position not found", st) := by
    unfold TradingRM.close_position
    rw [h]
  exact ⟨hmain, by rw [hmain], by rw [hmain], by rw [hmain]⟩

/-- Witness for C10: closing a position on an empty book errors and leaves
the state unchanged. -/
theorem C10_witness :
    TradingRM.close_position ⟨1000, [], []⟩ "BTC" 5 =
      (TradingRM.CloseResult.error "Position not found", ⟨1000, [], []⟩) :=
  (C10_close_position ⟨1000, [], []⟩ "BTC" 5 rfl).1

/-! ## Structural lemmas about `BacktestEngine.run` (for C5, C6, C8) -/

namespace BacktestEngine

/-- The accumulated equity curve extends the accumulator. -/
theorem runAux_snd_append (eng : EngineParams) (strategy : Strategy) :
    ∀ (rest hist : List Bar) (pf : Portfolio) (ec : List ℚ),
      (runAux eng strategy pf ec hist rest).2 =
        ec ++ (runAux eng strategy pf [] hist rest).2 := by
  intro rest
  induction rest with
  | nil => intro hist pf ec; simp [runAux]
  | cons bar rest ih =>
      intro hist pf ec
      rw [runAux, runAux]
      rw [ih (hist ++ [bar]) _ (ec ++ [_]), ih (hist ++ [bar]) _ ([] ++ [_])]
      simp

/-- One equity value is appended per bar. -/
theorem runAux_snd_length (eng : EngineParams) (strategy : Strategy) :
    ∀ (rest hist : List Bar) (pf : Portfolio) (ec : List ℚ),
      (runAux eng strategy pf ec hist rest).2.length =
        ec.length + rest.length := by
  intro rest
  induction rest with
  | nil => intro hist pf ec; simp [runAux]
  | cons bar rest ih =>
      intro hist pf ec
      rw [runAux]
      rw [ih (hist ++ [bar]) _ (ec ++ [_])]
      simp
      omega

/-- Splitting a run at an intermediate bar. -/
theorem runAux_split (eng : EngineParams) (strategy : Strategy) :
    ∀ (r1 r2 hist : List Bar) (pf : Portfolio) (ec : List ℚ),
      runAux eng strategy pf ec hist (r1 ++ r2) =
        runAux eng strategy (runAux eng strategy pf ec hist r1).1
          (runAux eng strategy pf ec hist r1).2 (hist ++ r1) r2 := by
  intro r1
  induction r1 with
  | nil => intro r2 hist pf ec; simp [runAux]
  | cons bar r1 ih =>
      intro r2 hist pf ec
      rw [List.cons_append, runAux, runAux]
      rw [ih r2 (hist ++ [bar]) _ (ec ++ [_])]
      simp

end BacktestEngine

namespace BacktestEngine

/-- The body of one iteration of the bar loop of `run` (the `rest`-cons
case of `runAux`), factored out for the proofs below. -/
def runStep (eng : EngineParams) (strategy : Strategy) (hist : List Bar)
    (bar : Bar) (pf : Portfolio) : Portfolio :=
  let seen := hist ++ [bar]
  let signals := strategy seen
  let pf1 := if signals = [] then pf else execute_trades eng signals bar pf
  update_portfolio pf1 bar

/-- Unfolding one iteration of `runAux` in terms of `runStep`. -/
theorem runAux_cons (eng : EngineParams) (strategy : Strategy)
    (pf : Portfolio) (ec : List ℚ) (hist : List Bar) (bar : Bar)
    (rest : List Bar) :
    runAux eng strategy pf ec hist (bar :: rest) =
      runAux eng strategy (runStep eng strategy hist bar pf)
        (ec ++ [(runStep eng strategy hist bar pf).equity])
        (hist ++ [bar]) rest := rfl

/-- The first `n` equity values depend only on the first `n` remaining
bars: two runs from the same state whose remaining data agree on the first
`n` bars produce the same first `accumulated + n` equity values. -/
theorem runAux_take_congr (eng : EngineParams) (strategy : Strategy) :
    ∀ (n : ℕ) (r1 r2 hist : List Bar) (pf : Portfolio) (ec : List ℚ),
      r1.take n = r2.take n →
      (runAux eng strategy pf ec hist r1).2.take (ec.length + n) =
        (runAux eng strategy pf ec hist r2).2.take (ec.length + n) := by
  intro n
  induction n with
  | zero =>
      intro r1 r2 hist pf ec _
      rw [Nat.add_zero]
      rw [runAux_snd_append eng strategy r1 hist pf ec,
        runAux_snd_append eng strategy r2 hist pf ec]
      rw [List.take_left, List.take_left]
  | succ n ih =>
      intro r1 r2 hist pf ec h
      cases r1 with
      | nil =>
          cases r2 with
          | nil => rfl
          | cons b2 t2 => simp [List.take_succ_cons] at h
      | cons b1 t1 =>
          cases r2 with
          | nil => simp [List.take_succ_cons] at h
          | cons b2 t2 =>
              rw [List.take_succ_cons, List.take_succ_cons] at h
              injection h with hb ht
              subst hb
              rw [runAux_cons, runAux_cons]
              have h3 := ih t1 t2 (hist ++ [b1])
                (runStep eng strategy hist b1 pf)
                (ec ++ [(runStep eng strategy hist b1 pf).equity]) ht
              rw [List.length_append] at h3
              simp only [List.length_singleton] at h3
              rw [show ec.length + (n + 1) = ec.length + 1 + n from by omega]
              exact h3

end BacktestEngine

/-! ### C5 -/

/-- **C5.** `run` processes bars in order and the work done at bar `i`
depends only on bars `0..i` (`generate_signals` at step `i` is called on
`data.iloc[:i+1]`, never on later bars): (a) two data sets that agree on
their first `n` bars produce the same first `n` equity values, for every
strategy function; (b) running on just the first `n` bars reproduces
exactly the first `n` equity values of the full run. -/
theorem C5_no_lookahead (eng : EngineParams) (strategy : BacktestEngine.Strategy) :
    (∀ (n : ℕ) (data1 data2 : List Bar), data1.take n = data2.take n →
      ((BacktestEngine.run eng strategy data1).2).take n =
        ((BacktestEngine.run eng strategy data2).2).take n) ∧
    (∀ (data : List Bar) (n : ℕ),
      (BacktestEngine.run eng strategy (data.take n)).2 =
        ((BacktestEngine.run eng strategy data).2).take n) := by
  have key : ∀ (n : ℕ) (d1 d2 : List Bar), d1.take n = d2.take n →
      ((BacktestEngine.run eng strategy d1).2).take n =
        ((BacktestEngine.run eng strategy d2).2).take n := by
    intro n d1 d2 h
    have h3 := BacktestEngine.runAux_take_congr eng strategy n d1 d2 []
      { cash := eng.initial_capital, positions := [],
        equity := eng.initial_capital, trades := [] } [] h
    simpa [BacktestEngine.run] using h3
  refine ⟨key, ?_⟩
  intro data n
  have h4 := key n (data.take n) data (by rw [List.take_take]; simp)
  have hlen : (BacktestEngine.run eng strategy (data.take n)).2.length ≤ n := by
    unfold BacktestEngine.run
    rw [BacktestEngine.runAux_snd_length]
    simp only [List.length_nil, Nat.zero_add, List.length_take]
    exact min_le_left _ _
  rw [List.take_of_length_le hlen] at h4
  exact h4

/-- Witness for C5: two 2-bar data sets agreeing on their first bar give
the same first equity value, with the engine's default parameters and a
do-nothing strategy. -/
theorem C5_witness :
    ((BacktestEngine.run
        { initial_capital := 100000, commission := 1/1000, slippage := 1/2000,
          risk := defaultRiskParams }
        (fun _ => []) [⟨1, 0⟩, ⟨2, 0⟩]).2).take 1 =
      ((BacktestEngine.run
        { initial_capital := 100000, commission := 1/1000, slippage := 1/2000,
          risk := defaultRiskParams }
        (fun _ => []) [⟨1, 0⟩, ⟨3, 0⟩]).2).take 1 :=
  (C5_no_lookahead
    { initial_capital := 100000, commission := 1/1000, slippage := 1/2000,
      risk := defaultRiskParams }
    (fun _ => [])).1 1 [⟨1, 0⟩, ⟨2, 0⟩] [⟨1, 0⟩, ⟨3, 0⟩] rfl

namespace BacktestEngine

/-- `getD` inside a `take` agrees with `getD` of the full list. -/
theorem getD_take_of_lt (l : List ℚ) (m i : ℕ) (h : i < m) (d : ℚ) :
    (l.take m).getD i d = l.getD i d := by
  rw [List.getD_eq_getElem?_getD, List.getD_eq_getElem?_getD,
    List.getElem?_take_of_lt h]

/-- The last equity value accumulated by a nonempty run is the equity of
the final portfolio. -/
theorem runAux_getD_last (eng : EngineParams) (strategy : Strategy) :
    ∀ (rest : List Bar), rest ≠ [] →
      ∀ (hist : List Bar) (pf : Portfolio) (ec : List ℚ),
      (runAux eng strategy pf ec hist rest).2.getD
          (ec.length + rest.length - 1) 0 =
        (runAux eng strategy pf ec hist rest).1.equity := by
  intro rest
  induction rest with
  | nil => intro h; exact absurd rfl h
  | cons bar rest ih =>
      intro _ hist pf ec
      rw [runAux_cons]
      by_cases hr : rest = []
      · subst hr
        simp only [runAux, List.length_cons, List.length_nil]
        rw [show ec.length + (0 + 1) - 1 = ec.length from by omega]
        rw [List.getD_append_right ec _ _ _ (le_refl _)]
        simp
      · have h3 := ih hr (hist ++ [bar]) (runStep eng strategy hist bar pf)
          (ec ++ [(runStep eng strategy hist bar pf).equity])
        rw [List.length_append, List.length_singleton] at h3
        simp only [List.length_cons]
        rw [show ec.length + (rest.length + 1) - 1 =
          ec.length + 1 + rest.length - 1 from by omega]
        exact h3

/-- After processing a run that ends with bar `b`, the final equity is the
final cash plus the final positions marked at `b`'s close (the shape of
`_update_portfolio`). -/
theorem runAux_final_equity (eng : EngineParams) (strategy : Strategy)
    (r : List Bar) (b : Bar) (hist : List Bar) (pf : Portfolio)
    (ec : List ℚ) :
    (runAux eng strategy pf ec hist (r ++ [b])).1.equity =
      (runAux eng strategy pf ec hist (r ++ [b])).1.cash +
        positionsValue
          (runAux eng strategy pf ec hist (r ++ [b])).1.positions b.close := by
  rw [runAux_split eng strategy r [b] hist pf ec]
  rw [runAux_cons]
  simp only [runAux]
  simp [runStep, update_portfolio]

end BacktestEngine

/-! ### C6 -/

/-- **C6.** `run` appends exactly one equity value per input bar — so the
final equity curve has the same length as the data — and the value
appended at bar `i` is the portfolio cash after the bar-`i` trades plus
the sum over the open positions of size times bar `i`'s close (the
portfolio state after bar `i` is the state of the run on the first `i+1`
bars). -/
theorem C6_equity_curve (eng : EngineParams)
    (strategy : BacktestEngine.Strategy) (data : List Bar) :
    (BacktestEngine.run eng strategy data).2.length = data.length ∧
    ∀ i, i < data.length →
      (BacktestEngine.run eng strategy data).2.getD i 0 =
        (BacktestEngine.run eng strategy (data.take (i+1))).1.cash +
          BacktestEngine.positionsValue
            (BacktestEngine.run eng strategy (data.take (i+1))).1.positions
            (data.getD i ⟨0, 0⟩).close := by
  constructor
  · unfold BacktestEngine.run
    rw [BacktestEngine.runAux_snd_length]
    simp
  · intro i hi
    unfold BacktestEngine.run
    have hkey := BacktestEngine.runAux_take_congr eng strategy (i+1)
      (data.take (i+1)) data []
      { cash := eng.initial_capital, positions := [],
        equity := eng.initial_capital, trades := [] } []
      (by rw [List.take_take]; simp)
    simp only [List.length_nil, Nat.zero_add] at hkey
    have hlen2 : (BacktestEngine.runAux eng strategy
        { cash := eng.initial_capital, positions := [],
          equity := eng.initial_capital, trades := [] } [] []
        (data.take (i+1))).2.length = i + 1 := by
      rw [BacktestEngine.runAux_snd_length]
      simp only [List.length_nil, Nat.zero_add, List.length_take]
      omega
    -- step A: the full run's i-th equity value is the prefix run's last
    have hA : (BacktestEngine.runAux eng strategy
        { cash := eng.initial_capital, positions := [],
          equity := eng.initial_capital, trades := [] } [] [] data).2.getD i 0 =
        (BacktestEngine.runAux eng strategy
          { cash := eng.initial_capital, positions := [],
            equity := eng.initial_capital, trades := [] } [] []
          (data.take (i+1))).2.getD i 0 := by
      rw [← BacktestEngine.getD_take_of_lt
        (BacktestEngine.runAux eng strategy
          { cash := eng.initial_capital, positions := [],
            equity := eng.initial_capital, trades := [] } [] [] data).2
        (i+1) i (by omega) 0]
      rw [← hkey]
      exact BacktestEngine.getD_take_of_lt _ (i+1) i (by omega) 0
    rw [hA]
    -- step B: the prefix run's last equity value is its final equity
    have hne : data.take (i+1) ≠ [] := by
      intro hcon
      have := congrArg List.length hcon
      simp only [List.length_take, List.length_nil] at this
      omega
    have hB := BacktestEngine.runAux_getD_last eng strategy (data.take (i+1))
      hne []
      { cash := eng.initial_capital, positions := [],
        equity := eng.initial_capital, trades := [] } []
    simp only [List.length_nil, Nat.zero_add, List.length_take] at hB
    rw [show min (i+1) data.length - 1 = i from by omega] at hB
    rw [hB]
    -- step C: the final equity is cash plus marked positions at bar i
    have hdec : data.take (i+1) = data.take i ++ [data.getD i ⟨0, 0⟩] := by
      rw [List.take_succ]
      congr 1
      rw [List.getElem?_eq_getElem hi]
      rw [List.getD_eq_getElem data ⟨0, 0⟩ hi]
      rfl
    rw [hdec]
    exact BacktestEngine.runAux_final_equity eng strategy (data.take i)
      (data.getD i ⟨0, 0⟩) []
      { cash := eng.initial_capital, positions := [],
        equity := eng.initial_capital, trades := [] } []

/-- Witness for C6 on a 2-bar data set with the engine defaults and a
do-nothing strategy: the equity curve has length 2 and its second entry is
the cash plus the (empty) positions marked at the second close. -/
theorem C6_witness :
    (BacktestEngine.run
      { initial_capital := 100000, commission := 1/1000, slippage := 1/2000,
        risk := defaultRiskParams }
      (fun _ => []) [⟨1, 0⟩, ⟨2, 0⟩]).2.length = 2 ∧
    (BacktestEngine.run
      { initial_capital := 100000, commission := 1/1000, slippage := 1/2000,
        risk := defaultRiskParams }
      (fun _ => []) [⟨1, 0⟩, ⟨2, 0⟩]).2.getD 1 0 =
      (BacktestEngine.run
        { initial_capital := 100000, commission := 1/1000, slippage := 1/2000,
          risk := defaultRiskParams }
        (fun _ => []) ([⟨1, 0⟩, ⟨2, 0⟩].take 2)).1.cash +
        BacktestEngine.positionsValue
          (BacktestEngine.run
            { initial_capital := 100000, commission := 1/1000, slippage := 1/2000,
              risk := defaultRiskParams }
            (fun _ => []) ([⟨1, 0⟩, ⟨2, 0⟩].take 2)).1.positions
          (([⟨1, 0⟩, ⟨2, 0⟩] : List Bar).getD 1 ⟨0, 0⟩).close := by
  have h := C6_equity_curve
    { initial_capital := 100000, commission := 1/1000, slippage := 1/2000,
      risk := defaultRiskParams }
    (fun _ => []) ([⟨1, 0⟩, ⟨2, 0⟩] : List Bar)
  exact ⟨h.1, h.2 1 (by simp)⟩


/-! ### C8

Every nonzero signal raises `AttributeError` before any cash movement
(see C1), so a run of the source either aborts on the first bar whose
signals contain a nonzero entry — with no state escaping — or completes
having executed no trade at all, leaving the cash exactly at the initial
capital.  The buy/sell crediting mechanism the claim describes never
happens. -/

namespace BacktestEngine

/-- A signal execution that returns normally changed nothing: only the
`signal == 0` skip avoids the `AttributeError`. -/
theorem execute_signal_checked_ok (eng : EngineParams) (current_bar : Bar)
    (pf pf' : Portfolio) (symbol : String) (signal : ℤ)
    (h : execute_signal_checked eng current_bar pf symbol signal =
      Except.ok pf') : pf' = pf := by
  simp only [execute_signal_checked, scalar_pct_change_std] at h
  by_cases h0 : signal = 0
  · rw [if_pos h0] at h
    injection h with h
    exact h.symm
  · rw [if_neg h0] at h
    simp at h

/-- A `_execute_trades` call that returns normally changed nothing. -/
theorem execute_trades_checked_ok (eng : EngineParams) (current_bar : Bar) :
    ∀ (signals : List (String × ℤ)) (pf pf' : Portfolio),
      execute_trades_checked eng signals current_bar pf = Except.ok pf' →
      pf' = pf := by
  intro signals
  induction signals with
  | nil =>
      intro pf pf' h
      unfold execute_trades_checked at h
      injection h with h
      exact h.symm
  | cons sp rest ih =>
      intro pf pf' h
      unfold execute_trades_checked at h
      cases hE : execute_signal_checked eng current_bar pf sp.1 sp.2 with
      | error e => rw [hE] at h; simp at h
      | ok pf1 =>
          rw [hE] at h
          have h1 := execute_signal_checked_ok eng current_bar pf pf1
            sp.1 sp.2 hE
          subst h1
          exact ih pf1 pf' h

/-- A bar loop that returns normally never changed the cash. -/
theorem runAux_checked_cash (eng : EngineParams) (strategy : Strategy) :
    ∀ (rest hist : List Bar) (pf : Portfolio) (ec : List ℚ)
      (pf' : Portfolio) (ec' : List ℚ),
      runAux_checked eng strategy pf ec hist rest = Except.ok (pf', ec') →
      pf'.cash = pf.cash := by
  intro rest
  induction rest with
  | nil =>
      intro hist pf ec pf' ec' h
      unfold runAux_checked at h
      injection h with h
      have h2 := (Prod.mk.injEq _ _ _ _).mp h
      rw [← h2.1]
  | cons bar rest ih =>
      intro hist pf ec pf' ec' h
      simp only [runAux_checked] at h
      by_cases hs : strategy (hist ++ [bar]) = []
      · rw [if_pos hs] at h
        have h3 := ih (hist ++ [bar]) (update_portfolio pf bar)
          (ec ++ [(update_portfolio pf bar).equity]) pf' ec' h
        rw [h3]
        rfl
      · rw [if_neg hs] at h
        cases hE : execute_trades_checked eng (strategy (hist ++ [bar]))
            bar pf with
        | error e => rw [hE] at h; simp at h
        | ok pf1 =>
            rw [hE] at h
            have h1 := execute_trades_checked_ok eng bar
              (strategy (hist ++ [bar])) pf pf1 hE
            subst h1
            have h3 := ih (hist ++ [bar]) (update_portfolio pf1 bar)
              (ec ++ [(update_portfolio pf1 bar).equity]) pf' ec' h
            rw [h3]
            rfl

end BacktestEngine

/-- **C8, counterexample.**  The claim asserts that (with commission rate
below 1) a sell credits cash by `position_size*execution_price*
(1-commission)` and a covered buy debits it.  At this concrete input —
initial capital 100 (non-negative), commission 0.001 < 1, a single bar
with close 2 and a sell signal for symbol A — the source raises
`AttributeError` at the volatility expression before any credit or debit:
the run aborts and no portfolio results, so the described crediting never
occurs. -/
theorem C8_counterexample :
    (0:ℚ) ≤ 100 ∧ (1/1000 : ℚ) < 1 ∧
    BacktestEngine.run_checked
      { initial_capital := 100, commission := 1/1000, slippage := 1/2000,
        risk := defaultRiskParams }
      (fun _ => [("A", -1)]) [⟨2, 0⟩] =
      Except.error "AttributeError: 'float' object has no attribute 'pct_change'" :=
  ⟨by norm_num, by norm_num, rfl⟩

/-- **C8, amended.**  Starting from a non-negative initial capital, the
cash never becomes negative — in fact it never changes: a bar whose
signals are all zero leaves the portfolio untouched, and any nonzero
signal raises `AttributeError` at the volatility expression before any
cash movement, aborting the run.  So every run that completes returns
cash exactly equal to the initial capital, hence non-negative. -/
theorem C8_cash_unchanged (eng : EngineParams)
    (strategy : BacktestEngine.Strategy) (data : List Bar)
    (pf : Portfolio) (ec : List ℚ)
    (hcap : 0 ≤ eng.initial_capital)
    (h : BacktestEngine.run_checked eng strategy data = Except.ok (pf, ec)) :
    pf.cash = eng.initial_capital ∧ 0 ≤ pf.cash := by
  have h1 := BacktestEngine.runAux_checked_cash eng strategy data []
    { cash := eng.initial_capital, positions := [],
      equity := eng.initial_capital, trades := [] } [] pf ec h
  exact ⟨h1, by rw [h1]; exact hcap⟩

/-- Witness for the amended C8: a completed one-bar run with all-zero
signals ends with cash 100, the initial capital. -/
theorem C8_witness :
    ∃ (pf : Portfolio) (ec : List ℚ),
      BacktestEngine.run_checked
        { initial_capital := 100, commission := 1/1000, slippage := 1/2000,
          risk := defaultRiskParams }
        (fun _ => []) [⟨1, 0⟩] = Except.ok (pf, ec) ∧
      pf.cash = 100 ∧ 0 ≤ pf.cash := by
  have hrun : BacktestEngine.run_checked
      { initial_capital := 100, commission := 1/1000, slippage := 1/2000,
        risk := defaultRiskParams }
      (fun _ => []) [⟨1, 0⟩] =
      Except.ok ({ cash := 100, positions := [], equity := 100, trades := [] },
        [(100:ℚ)]) := by
    norm_num [BacktestEngine.run_checked, BacktestEngine.runAux_checked,
      BacktestEngine.update_portfolio, BacktestEngine.positionsValue]
  exact ⟨_, _, hrun, C8_cash_unchanged _ _ _ _ _ (by norm_num) hrun⟩
